import Mathlib

/-!
Shallow embedding of the playwright-mcp-proxy core: the framed-channel
chunked line reader, the JSON-RPC reply handling, the process manager
state machine, the restart policy, the HTTP proxy request handler and the
content-store diff/filter logic, each translated from the Python source
(`server/playwright_manager.py`, `server/app.py`, `models/api.py`),
together with theorems settling the specification claims about them.
-/

namespace PwProxy

/-! ### JSON values (the shape of parsed `json.loads` output) -/

/-- A JSON value, as produced by parsing a reply line.  Numbers are
modelled as integers; no claim depends on numeric contents. -/
inductive Json where
  | null : Json
  | bool (b : Bool) : Json
  | num (n : Int) : Json
  | str (s : String) : Json
  | arr (xs : List Json) : Json
  | obj (kvs : List (String × Json)) : Json

/-- Python `key in response` for an object-shaped (dict) reply. -/
def jsonHasKey (j : Json) (k : String) : Bool :=
  match j with
  | .obj kvs => kvs.any (fun p => p.1 = k)
  | _ => false

/-- Python `response[key]` / `response.get(key, default)` for an
object-shaped reply (dicts have unique keys; first match). -/
def jsonGetD (j : Json) (k : String) (d : Json) : Json :=
  match j with
  | .obj kvs =>
    match kvs.find? (fun p => p.1 = k) with
    | some p => p.2
    | none => d
  | _ => d

/-! ### `app.py`: compute_hash and truncate_error

`compute_hash` is SHA-256; the embedding abstracts it as a parameter
`hash : String → String` so that every theorem states exactly which
string the code hashes. -/

/-- `truncate_error` from `server/app.py`: truncate an error message to
`maxLength` characters, appending an explicit truncation marker. -/
def truncate_error (error_msg : String) (maxLength : Nat) : String :=
  if error_msg.length ≤ maxLength then error_msg
  else error_msg.take maxLength ++
    ("... (truncated, " ++ toString error_msg.length ++ " total chars)")

/-! ### Substring containment (Python `needle in haystack`) -/

/-- Does `hay` start with `needle`?  (Python str slicing comparison.) -/
def startsWithSub : List Char → List Char → Bool
  | [], _ => true
  | _ :: _, [] => false
  | a :: as, b :: bs => a = b && startsWithSub as bs

/-- Does `hay` contain `needle` as a contiguous run? -/
def hasSub (needle : List Char) : List Char → Bool
  | [] => startsWithSub needle []
  | c :: rest => startsWithSub needle (c :: rest) || hasSub needle rest

/-- Python substring test `sub in hay`. -/
def strContains (hay sub : String) : Bool :=
  hasSub sub.toList hay.toList

/-! ### `get_content` filter step (`server/app.py`, the `search_for` block) -/

/-- Python `content.split("\n")` on the character list: split at every
newline, preserving empty parts (`"".split("\n") == [""]`). -/
def splitNL : List Char → List (List Char)
  | [] => [[]]
  | c :: cs =>
    if c = '\n' then [] :: splitNL cs
    else
      match splitNL cs with
      | [] => [[c]]
      | p :: ps => (c :: p) :: ps

/-- Python `content.split("\n")` as an operation on strings. -/
def splitLines (content : String) : List String :=
  (splitNL content.toList).map (fun l => String.mk l)

/-- The indices contributed by one matching line `i`: the line itself,
up to `before` context lines before it (clipped at 0), and up to `after`
context lines after it (clipped at the line count `n`). -/
def contextIndices (n i before after : Nat) : List Nat :=
  i :: ((List.range before).filterMap
          (fun b => if b + 1 ≤ i then some (i - (b + 1)) else none))
    ++ (List.range after).filterMap
          (fun a => if i + (a + 1) < n then some (i + (a + 1)) else none)

/-- `set.add`: add an element to a set held as a duplicate-free list. -/
def setAdd (s : List Nat) (x : Nat) : List Nat :=
  if x ∈ s then s else x :: s

/-- The Python `matching_indices` set: scan every line, and for each line
containing `search_for` add its context indices. -/
def matchingIndices (all_lines : List String) (search_for : String)
    (before_lines after_lines : Nat) : List Nat :=
  (List.range all_lines.length).foldl
    (fun acc i =>
      if strContains (all_lines.getD i "") search_for then
        (contextIndices all_lines.length i before_lines after_lines).foldl setAdd acc
      else acc) []

/-- The Python output loop: walk the sorted kept indices, inserting a
literal `--` line whenever two consecutive kept indices have a gap. -/
def emitLines (all_lines : List String) : Option Nat → List Nat → List String
  | _, [] => []
  | prev, idx :: rest =>
    (if match prev with
        | some p => decide (idx - p > 1)
        | none => false
     then ["--"] else [])
      ++ (all_lines.getD idx "" :: emitLines all_lines (some idx) rest)

/-- The whole `search_for` filter block of `get_content`: split into
lines, collect matching indices with context, and rebuild the content
with gap separators (empty result when nothing matches). -/
def applyFilter (content search_for : String) (before_lines after_lines : Nat) : String :=
  let all_lines := splitLines content
  let sorted_indices :=
    List.insertionSort (· ≤ ·) (matchingIndices all_lines search_for before_lines after_lines)
  if sorted_indices = [] then ""
  else String.intercalate "\n" (emitLines all_lines none sorted_indices)

/-! ### Diff cursor and `get_content` (`server/app.py`) -/

/-- `DiffCursor` record (`models/database.py`): per-reference diff state.
`last_read` timestamps are modelled as naturals. -/
structure DiffCursor where
  ref_id : String
  cursor_position : Nat
  last_snapshot_hash : String
  last_read : Nat
deriving DecidableEq

/-- The `/content/{ref_id}` handler `get_content` from `server/app.py`,
as a pure state-passing function: given the hash function, the stored
response page snapshot (`none` when the response has no snapshot), the
current cursor for `ref_id`, and the query options, it returns the
content served and the cursor state after the read. -/
def get_content (hash : String → String) (ref_id : String)
    (page_snapshot : Option String) (cursor0 : Option DiffCursor)
    (search_for : String) (reset_cursor : Bool)
    (before_lines after_lines : Nat) (now : Nat) : String × Option DiffCursor :=
  match page_snapshot with
  | none => ("", cursor0)
  | some snap =>
    if snap = "" then ("", cursor0)
    else
      let content :=
        if search_for ≠ "" then applyFilter snap search_for before_lines after_lines
        else snap
      if reset_cursor then
        (content, some ⟨ref_id, content.length, hash content, now⟩)
      else
        match cursor0 with
        | none =>
          (content, some ⟨ref_id, content.length, hash content, now⟩)
        | some cursor =>
          if cursor.last_snapshot_hash = hash content then
            ("", some { cursor with last_read := now })
          else
            (content, some { cursor with
              cursor_position := content.length,
              last_snapshot_hash := hash content,
              last_read := now })

/-! ### `_read_line_chunked` (`server/playwright_manager.py`)

The stream is modelled at end-of-input: the whole remaining byte
sequence has arrived and EOF is set, which is the state in which every
`readuntil` outcome (complete line, `IncompleteReadError` at EOF, or
`LimitOverrunError` past the buffer limit) is determined by the data.
Bytes are naturals; the newline byte is 10. -/

/-- Index of the first newline byte, if any. -/
def findNL : List Nat → Option Nat
  | [] => none
  | b :: bs => if b = 10 then some 0 else (findNL bs).map (· + 1)

theorem findNL_none {l : List Nat} (h : findNL l = none) : ∀ b ∈ l, b ≠ 10 := by
  induction l with
  | nil => simp
  | cons x xs ih =>
    by_cases hx : x = 10
    · simp [findNL, hx] at h
    · cases hfx : findNL xs with
      | some j => simp [findNL, hx, hfx] at h
      | none =>
        intro b hb
        rcases List.mem_cons.mp hb with rfl | hb
        · exact hx
        · exact ih hfx b hb

theorem findNL_some_lt {l : List Nat} {i : Nat} (h : findNL l = some i) :
    i < l.length := by
  induction l generalizing i with
  | nil => simp [findNL] at h
  | cons x xs ih =>
    by_cases hx : x = 10
    · simp only [findNL, hx, if_true, Option.some_inj] at h
      simp only [List.length_cons]
      omega
    · cases hfx : findNL xs with
      | none => simp [findNL, hx, hfx] at h
      | some j =>
        simp [findNL, hx, hfx] at h
        have hj := ih hfx
        simp only [List.length_cons]
        omega

/-- `_read_line_chunked`: repeatedly `readuntil(b"\n")`, draining the
already-buffered bytes on `LimitOverrunError` (`read(e.consumed)`),
stopping on a complete line or on `IncompleteReadError` at EOF.  Returns
the assembled line and the bytes left in the stream.  `limit` is the
reader's buffer limit (64 KiB by default in asyncio). -/
def read_line_chunked (limit : Nat) (buf : List Nat) : List Nat × List Nat :=
  match h : findNL buf with
  | some isep =>
    if hl : isep > limit then
      -- LimitOverrunError with `consumed = isep`: drain `isep` bytes, loop
      have : (buf.drop isep).length < buf.length := by
        have := findNL_some_lt h
        rw [List.length_drop]
        omega
      let pr := read_line_chunked limit (buf.drop isep)
      (buf.take isep ++ pr.1, pr.2)
    else
      -- complete line including the newline
      (buf.take (isep + 1), buf.drop (isep + 1))
  | none =>
    if hl : buf.length > limit then
      -- LimitOverrunError with `consumed = buflen`: drain everything, loop
      have : (buf.drop buf.length).length < buf.length := by
        rw [List.length_drop]
        omega
      let pr := read_line_chunked limit (buf.drop buf.length)
      (buf.take buf.length ++ pr.1, pr.2)
    else
      -- IncompleteReadError at EOF: the partial bytes are the final frame
      (buf, [])
termination_by buf.length

/-! ### JSON-RPC reply handling in `send_request` (`server/playwright_manager.py`) -/

/-- What came back on the reply line: nothing (process dead), bytes that
do not parse as JSON, or a parsed JSON value. -/
inductive RawReply where
  | empty : RawReply
  | malformed : RawReply
  | parsed (j : Json) : RawReply

/-- A failure of one `send_request` call.  `notHealthy` is the
`RuntimeError("Playwright subprocess is not healthy")` guard,
`emptyResponse` the empty-reply check, `decodeError` the propagated
`json.JSONDecodeError`, and `remoteError` the
`RuntimeError(f"Playwright MCP error: ...")` raised when the reply
carries an `error` field. -/
inductive RpcFailure where
  | notHealthy : RpcFailure
  | emptyResponse : RpcFailure
  | decodeError : RpcFailure
  | remoteError (payload : Json) : RpcFailure

/-- The reply-interpretation tail of `send_request`, for a parsed reply:
`if "error" in response: raise ...` then `return response.get("result", {})`. -/
def processReply (response : Json) : Except RpcFailure Json :=
  if jsonHasKey response "error" then
    .error (.remoteError (jsonGetD response "error" .null))
  else
    .ok (jsonGetD response "result" (.obj []))

/-- Reply handling including the empty-line and JSON-decode checks that
precede `processReply` in `send_request`. -/
def handleReply : RawReply → Except RpcFailure Json
  | .empty => .error .emptyResponse
  | .malformed => .error .decodeError
  | .parsed j => processReply j

/-! ### `PlaywrightManager` state machine (`server/playwright_manager.py`) -/

/-- The manager fields that the claims observe: whether a live process
handle (with stdin) exists, the healthy flag, the message-id counter,
and the log of request lines written to the subprocess stdin
(id, method, params). -/
structure ManagerState where
  processAlive : Bool
  is_healthy : Bool
  message_id : Nat
  writes : List (Nat × String × Json)

/-- `send_request`: the not-healthy guard, then (under the lock)
increment the id, write one request line, read one reply line and
interpret it.  The reply is supplied by the environment. -/
def send_request (st : ManagerState) (method : String) (params : Json)
    (reply : RawReply) : Except RpcFailure Json × ManagerState :=
  if st.is_healthy = false ∨ st.processAlive = false then
    (.error .notHealthy, st)
  else
    let id := st.message_id + 1
    let st1 : ManagerState :=
      { st with message_id := id, writes := st.writes ++ [(id, method, params)] }
    (handleReply reply, st1)

/-- The `params` dictionary of the MCP initialize handshake. -/
def handshakeParams : Json :=
  .obj [("protocolVersion", .str "2024-11-05"),
        ("capabilities", .obj []),
        ("clientInfo", .obj [("name", .str "playwright-proxy"),
                             ("version", .str "0.1.0")])]

/-- `_send_initialize`: issue the handshake call and swallow any
exception (it is only logged). -/
def sendHandshake (st : ManagerState) (reply : RawReply) : ManagerState :=
  (send_request st "initialize" handshakeParams reply).2

/-- `start()`: spawn the subprocess (failure re-raised as a launch
error), run the handshake, then set the healthy flag.  The health-check
and stderr tasks carry no state observed by the claims. -/
def start (st : ManagerState) (spawn_ok : Bool) (reply : RawReply) :
    Except String ManagerState :=
  if spawn_ok = false then .error "LaunchError"
  else
    let st1 : ManagerState := { st with processAlive := true }
    let st2 := sendHandshake st1 reply
    .ok { st2 with is_healthy := true }

/-! ### Restart policy (`_attempt_restart`, `server/playwright_manager.py`)

Timestamps (`time.time()`) are modelled as rationals.  The
`restart_attempts` deque (oldest first) is a list of timestamps. -/

/-- The `while` loop popping attempts older than the window from the
front of the deque. -/
def evictOld (window now : ℚ) : List ℚ → List ℚ
  | [] => []
  | t :: ts => if now - t > window then evictOld window now ts else t :: ts

/-- `deque(maxlen=maxA).append`: appending past capacity drops from the
left.  (`_attempt_restart` only appends below capacity, so the drop
never fires there; the capacity is still part of the model.) -/
def dequeAppend (maxA : Nat) (l : List ℚ) (x : ℚ) : List ℚ :=
  let l' := l ++ [x]
  l'.drop (l'.length - maxA)

/-- One `_attempt_restart` decision at time `now`: evict old attempts,
refuse when the retained count is at the cap, otherwise record the
attempt and return the backoff `2 ^ (count_after_append - 1)` slept
before the stop+start sequence. -/
def attempt_restart (maxA : Nat) (window : ℚ) (now : ℚ) (attempts : List ℚ) :
    List ℚ × Option Nat :=
  let a1 := evictOld window now attempts
  if maxA ≤ a1.length then (a1, none)
  else
    let a2 := dequeAppend maxA a1 now
    (a2, some (2 ^ (a2.length - 1)))

/-- Run the restart policy over a sequence of decision times, collecting
the performed restarts as (time, backoff) pairs. -/
def runPolicy (maxA : Nat) (window : ℚ) (attempts : List ℚ) :
    List ℚ → List ℚ × List (ℚ × Nat)
  | [] => (attempts, [])
  | t :: ts =>
    match attempt_restart maxA window t attempts with
    | (st, none) => runPolicy maxA window st ts
    | (st, some b) =>
      let pr := runPolicy maxA window st ts
      (pr.1, (t, b) :: pr.2)

/-! ### `/proxy` request handling (`proxy_request`, `server/app.py`) -/

/-- `ProxyRequest` (`models/api.py`): `request_id` is optional. -/
structure ProxyRequest where
  session_id : String
  tool : String
  params : Json
  request_id : Option String

/-- A `requests` row created by `proxy_request`. -/
structure RequestRec where
  ref_id : String
  session_id : String
  tool_name : String
deriving DecidableEq

/-- A `responses` row created by `proxy_request` (`error_message` holds
the untruncated error stored in the database). -/
structure ResponseRec where
  ref_id : String
  status : String
  error_message : Option String
deriving DecidableEq

/-- What the `/proxy` route hands back: an `HTTPException` with status
code and detail, or a `ProxyResponse` (here: its `ref_id`, `status` and
truncated `error` fields). -/
inductive ProxyOutcome where
  | httpError (status : Nat) (detail : String) : ProxyOutcome
  | ok (ref_id : String) (status : String) (error : Option String) : ProxyOutcome
deriving DecidableEq

/-- The database state `proxy_request` touches: session states keyed by
session id, plus the request and response rows. -/
structure AppState where
  sessions : List (String × String)
  requests : List RequestRec
  responses : List ResponseRec
deriving DecidableEq

/-- `database.get_session(...).state`. -/
def lookupSession (app : AppState) (sid : String) : Option String :=
  (app.sessions.find? (fun p => p.1 = sid)).map Prod.snd

/-- `database.update_session_state(sid, new_state)`. -/
def setSessionState (app : AppState) (sid new_state : String) : AppState :=
  { app with sessions :=
      app.sessions.map (fun p => if p.1 = sid then (p.1, new_state) else p) }

/-- The `/proxy` handler `proxy_request` from `server/app.py`: session
checks, `ref_id = request.request_id or str(uuid.uuid4())`, request-row
creation, then the forwarded call (its outcome supplied by the
environment as `rpc`; `fresh_uuid` is the `uuid.uuid4()` draw).
On failure the full error is stored, the session is moved to the
`error` state, and the truncated error is returned. -/
def proxy_request (app : AppState) (request : ProxyRequest)
    (fresh_uuid : String) (rpc : Except String Json) : ProxyOutcome × AppState :=
  match lookupSession app request.session_id with
  | none => (.httpError 404 "Session not found", app)
  | some sstate =>
    if sstate ≠ "active" then
      (.httpError 400 ("Session is " ++ sstate), app)
    else
      let ref_id :=
        match request.request_id with
        | some r => if r = "" then fresh_uuid else r
        | none => fresh_uuid
      let app1 : AppState :=
        { app with requests :=
            app.requests ++ [⟨ref_id, request.session_id, request.tool⟩] }
      match rpc with
      | .ok _result =>
        let app2 : AppState :=
          { app1 with responses := app1.responses ++ [⟨ref_id, "success", none⟩] }
        (.ok ref_id "success" none, app2)
      | .error e =>
        let app2 : AppState :=
          { app1 with responses := app1.responses ++ [⟨ref_id, "error", some e⟩] }
        let app3 := setSessionState app2 request.session_id "error"
        (.ok ref_id "error" (some (truncate_error e 500)), app3)

/-! ### Spec-side definitions for the filter refinement (claim C7)

These two definitions follow the specification's words ("collect indices
of lines containing the substring plus up to N lines before and M lines
after each match (deduplicated, merged), then reconstruct output
preserving original order and inserting a literal `--` separator
wherever two kept indices are non-adjacent"), to be compared with
`applyFilter` above. -/

/-- Modelled from the spec: the kept line indices, in order — an index
is kept when some matching line lies at most `before` below it or at
most `after` above it. -/
def keptIndicesSpec (all_lines : List String) (search_for : String)
    (before after : Nat) : List Nat :=
  (List.range all_lines.length).filter (fun k =>
    (List.range all_lines.length).any (fun i =>
      strContains (all_lines.getD i "") search_for
        && decide (i ≤ k + before) && decide (k ≤ i + after)))

/-- Modelled from the spec: rebuild the kept lines in original order,
inserting a literal `--` line exactly between consecutive kept indices
that are non-adjacent. -/
def renderKeptSpec (all_lines : List String) : List Nat → List String
  | [] => []
  | [k] => [all_lines.getD k ""]
  | k1 :: k2 :: rest =>
    all_lines.getD k1 ""
      :: ((if k1 + 1 < k2 then ["--"] else [])
            ++ renderKeptSpec all_lines (k2 :: rest))

/-- Modelled from the spec: the whole filtered view. -/
def filteredSpec (content search_for : String) (before after : Nat) : String :=
  let all_lines := splitLines content
  let kept := keptIndicesSpec all_lines search_for before after
  if kept = [] then "" else String.intercalate "\n" (renderKeptSpec all_lines kept)

/-! ## Supporting lemmas -/

theorem findNL_of_no_nl {data : List Nat} (h : ∀ b ∈ data, b ≠ 10) :
    findNL data = none := by
  induction data with
  | nil => rfl
  | cons x xs ih =>
    have hx : x ≠ 10 := h x (List.mem_cons_self x xs)
    have hxs := ih (fun b hb => h b (List.mem_cons_of_mem x hb))
    simp [findNL, hx, hxs]

theorem findNL_append_nl {pre : List Nat} (h : ∀ b ∈ pre, b ≠ 10)
    (rest : List Nat) : findNL (pre ++ 10 :: rest) = some pre.length := by
  induction pre with
  | nil => simp [findNL]
  | cons x xs ih =>
    have hx : x ≠ 10 := h x (List.mem_cons_self x xs)
    have hxs := ih (fun b hb => h b (List.mem_cons_of_mem x hb))
    simp [findNL, hx, hxs]

theorem rlc_complete {limit : Nat} {buf : List Nat} {isep : Nat}
    (h : findNL buf = some isep) (hle : isep ≤ limit) :
    read_line_chunked limit buf = (buf.take (isep + 1), buf.drop (isep + 1)) := by
  rw [read_line_chunked.eq_def]
  split
  · rename_i isep' heq
    rw [h] at heq
    injection heq with heq
    subst heq
    rw [dif_neg (by omega)]
  · rename_i heq
    rw [h] at heq
    exact absurd heq (by simp)

theorem rlc_overrun_some {limit : Nat} {buf : List Nat} {isep : Nat}
    (h : findNL buf = some isep) (hgt : limit < isep) :
    read_line_chunked limit buf =
      (buf.take isep ++ (read_line_chunked limit (buf.drop isep)).1,
       (read_line_chunked limit (buf.drop isep)).2) := by
  rw [read_line_chunked.eq_def]
  split
  · rename_i isep' heq
    rw [h] at heq
    injection heq with heq
    subst heq
    rw [dif_pos (by omega)]
  · rename_i heq
    rw [h] at heq
    exact absurd heq (by simp)

theorem rlc_incomplete {limit : Nat} {buf : List Nat}
    (h : findNL buf = none) (hle : buf.length ≤ limit) :
    read_line_chunked limit buf = (buf, []) := by
  rw [read_line_chunked.eq_def]
  split
  · rename_i isep' heq
    rw [h] at heq
    exact absurd heq (by simp)
  · rw [dif_neg (by omega)]

theorem rlc_overrun_none {limit : Nat} {buf : List Nat}
    (h : findNL buf = none) (hgt : limit < buf.length) :
    read_line_chunked limit buf =
      (buf.take buf.length ++ (read_line_chunked limit (buf.drop buf.length)).1,
       (read_line_chunked limit (buf.drop buf.length)).2) := by
  rw [read_line_chunked.eq_def]
  split
  · rename_i isep' heq
    rw [h] at heq
    exact absurd heq (by simp)
  · rw [dif_pos (by omega)]

theorem rlc_nil (limit : Nat) : read_line_chunked limit [] = ([], []) := by
  have : findNL [] = none := rfl
  rw [rlc_incomplete this (by simp)]

theorem split_marker (a t : String) :
    a ++ (("... (truncated, " ++ t) ++ " total chars)") =
      (a ++ "... ") ++ (("(truncated, " ++ t) ++ " total chars)") := by
  apply String.ext
  simp [String.data_append, List.append_assoc]

/-! ## Claim theorems -/

/-- C8: an error string of at most 500 characters is returned unchanged
by `truncate_error`; a longer one is truncated to 500 characters and
suffixed with an explicit `(truncated, N total chars)` marker where `N`
is the original total length — never silently shortened. -/
theorem truncate_error_marker (error_msg : String) :
    (error_msg.length ≤ 500 → truncate_error error_msg 500 = error_msg)
    ∧ (500 < error_msg.length →
        truncate_error error_msg 500 =
          error_msg.take 500 ++
            ("... (truncated, " ++ toString error_msg.length ++ " total chars)")
        ∧ ∃ kept, truncate_error error_msg 500 =
            kept ++ (("(truncated, " ++ toString error_msg.length) ++ " total chars)")) := by
  constructor
  · intro h
    simp [truncate_error, h]
  · intro h
    have hns : ¬ error_msg.length ≤ 500 := by omega
    have heq : truncate_error error_msg 500 =
        error_msg.take 500 ++
          ("... (truncated, " ++ toString error_msg.length ++ " total chars)") := by
      simp [truncate_error, hns]
    refine ⟨heq, error_msg.take 500 ++ "... ", ?_⟩
    rw [heq]
    exact split_marker _ _

set_option maxRecDepth 10000 in
/-- C8 witness: the identity branch on a short message and the marker
branch on a 501-character message. -/
theorem truncate_error_marker_witness :
    (("ok" : String).length ≤ 500 ∧ truncate_error "ok" 500 = "ok")
    ∧ (500 < (String.mk (List.replicate 501 'a')).length
        ∧ truncate_error (String.mk (List.replicate 501 'a')) 500 =
            (String.mk (List.replicate 501 'a')).take 500 ++
              ("... (truncated, "
                ++ toString (String.mk (List.replicate 501 'a')).length
                ++ " total chars)")) :=
  ⟨⟨by decide, (truncate_error_marker "ok").1 (by decide)⟩,
   ⟨by decide, ((truncate_error_marker _).2 (by decide)).1⟩⟩

/-- C2: for every buffer limit and every byte stream, the chunked line
read returns the first newline-terminated frame intact — also when the
frame is longer than the limit, in which case the overrun path is taken
rather than an error — leaving the rest of the stream unread; and at
end-of-stream with no delimiter it returns the partial bytes accumulated
so far as the final frame. -/
theorem read_line_chunked_lossless (limit : Nat) :
    (∀ pre rest : List Nat, (∀ b ∈ pre, b ≠ 10) →
        read_line_chunked limit (pre ++ 10 :: rest) = (pre ++ [10], rest))
    ∧ ∀ data : List Nat, (∀ b ∈ data, b ≠ 10) →
        read_line_chunked limit data = (data, []) := by
  constructor
  · intro pre rest hpre
    have hf : findNL (pre ++ 10 :: rest) = some pre.length := findNL_append_nl hpre rest
    by_cases hl : limit < pre.length
    · rw [rlc_overrun_some hf hl, List.drop_left, List.take_left]
      have h0 : findNL (10 :: rest) = some 0 := by simp [findNL]
      rw [rlc_complete h0 (Nat.zero_le _)]
      simp
    · rw [rlc_complete hf (by omega)]
      have ht : (pre ++ 10 :: rest).take (pre.length + 1) = pre ++ [10] := by
        rw [List.take_append 1]
        simp
      have hd : (pre ++ 10 :: rest).drop (pre.length + 1) = rest := by
        rw [List.drop_append 1]
        simp
      rw [ht, hd]
  · intro data h
    have hn : findNL data = none := findNL_of_no_nl h
    by_cases hl : limit < data.length
    · rw [rlc_overrun_none hn hl]
      simp [rlc_nil]
    · rw [rlc_incomplete hn (by omega)]

/-- C2 witness: a 9-byte frame read through a 5-byte limit (two overrun
drains) arrives intact, and a stream with no delimiter yields its bytes
as the final frame. -/
theorem read_line_chunked_lossless_witness :
    ((∀ b ∈ [65, 66, 67, 68, 69, 70, 71, 72], b ≠ 10)
      ∧ read_line_chunked 5 ([65, 66, 67, 68, 69, 70, 71, 72] ++ 10 :: [99])
          = ([65, 66, 67, 68, 69, 70, 71, 72] ++ [10], [99]))
    ∧ ((∀ b ∈ [65, 66, 67], b ≠ 10)
      ∧ read_line_chunked 1 [65, 66, 67] = ([65, 66, 67], [])) :=
  ⟨⟨by decide, (read_line_chunked_lossless 5).1 _ _ (by decide)⟩,
   ⟨by decide, (read_line_chunked_lossless 1).2 _ (by decide)⟩⟩

/-- C3 counterexample: a syntactically valid JSON reply with neither a
`result` nor an `error` field is answered with an empty-mapping success,
not a protocol error, contradicting the claim that such a reply must
fail. -/
theorem reply_missing_both_is_success :
    processReply (Json.obj []) = Except.ok (Json.obj [])
    ∧ jsonHasKey (Json.obj []) "error" = false
    ∧ jsonHasKey (Json.obj []) "result" = false :=
  ⟨rfl, rfl, rfl⟩

theorem jsonGetD_of_hasKey_false {kvs : List (String × Json)} {k : String}
    (h : jsonHasKey (Json.obj kvs) k = false) (d : Json) :
    jsonGetD (Json.obj kvs) k d = d := by
  have hall : ∀ p ∈ kvs, ¬ (p.1 = k) := by
    intro p hp
    by_contra hc
    have : kvs.any (fun p => p.1 = k) = true :=
      List.any_eq_true.mpr ⟨p, hp, by simp [hc]⟩
    simp [jsonHasKey, this] at h
  have hfind : kvs.find? (fun p => decide (p.1 = k)) = none :=
    List.find?_eq_none.mpr (fun p hp => by simp [hall p hp])
  simp [jsonGetD, hfind]

/-- C3 (amended): an unparsable reply fails with a decode error, a reply
carrying an `error` field fails with the remote payload, and otherwise
the `result` field is returned, defaulting to an empty mapping whenever
`result` is absent — including the case where both `result` and `error`
are absent, which is an empty-mapping success rather than an error. -/
theorem send_request_reply_amended (kvs : List (String × Json)) :
    handleReply RawReply.malformed = Except.error RpcFailure.decodeError
    ∧ (jsonHasKey (Json.obj kvs) "error" = true →
        handleReply (RawReply.parsed (Json.obj kvs)) =
          Except.error (RpcFailure.remoteError (jsonGetD (Json.obj kvs) "error" Json.null)))
    ∧ (jsonHasKey (Json.obj kvs) "error" = false →
        handleReply (RawReply.parsed (Json.obj kvs)) =
          Except.ok (jsonGetD (Json.obj kvs) "result" (Json.obj [])))
    ∧ (jsonHasKey (Json.obj kvs) "error" = false →
        jsonHasKey (Json.obj kvs) "result" = false →
        handleReply (RawReply.parsed (Json.obj kvs)) = Except.ok (Json.obj [])) := by
  refine ⟨rfl, ?_, ?_, ?_⟩
  · intro h
    simp [handleReply, processReply, h]
  · intro h
    simp [handleReply, processReply, h]
  · intro herr hres
    simp [handleReply, processReply, herr, jsonGetD_of_hasKey_false hres]

/-- C3 amended witness: a reply with an `error` field fails with the
remote payload; an empty-object reply succeeds with an empty mapping. -/
theorem send_request_reply_amended_witness :
    (jsonHasKey (Json.obj [("error", Json.num 1)]) "error" = true
      ∧ handleReply (RawReply.parsed (Json.obj [("error", Json.num 1)])) =
          Except.error (RpcFailure.remoteError
            (jsonGetD (Json.obj [("error", Json.num 1)]) "error" Json.null)))
    ∧ (jsonHasKey (Json.obj []) "error" = false
      ∧ handleReply (RawReply.parsed (Json.obj [])) = Except.ok (Json.obj [])) :=
  ⟨⟨rfl, (send_request_reply_amended [("error", Json.num 1)]).2.1 rfl⟩,
   ⟨rfl, (send_request_reply_amended []).2.2.2 rfl rfl⟩⟩

/-- C9: when `start()` runs with the healthy flag still false (as it
always is before the flag assignment), the handshake's inner
`send_request` fails with the not-healthy guard before writing anything
to the subprocess stdin, and `start()` nevertheless completes, leaving
the write log untouched and the process marked healthy. -/
theorem start_handshake_not_healthy (st : ManagerState) (reply : RawReply)
    (h : st.is_healthy = false) :
    (send_request { st with processAlive := true } "initialize" handshakeParams reply).1
        = Except.error RpcFailure.notHealthy
    ∧ (send_request { st with processAlive := true } "initialize" handshakeParams reply).2
        = { st with processAlive := true }
    ∧ start st true reply =
        Except.ok { st with processAlive := true, is_healthy := true } := by
  refine ⟨?_, ?_, ?_⟩
  · simp [send_request, h]
  · simp [send_request, h]
  · simp [start, sendHandshake, send_request, h]

/-- C9 witness: from the freshly initialized manager state. -/
theorem start_handshake_not_healthy_witness :
    (ManagerState.mk false false 0 []).is_healthy = false
    ∧ start (ManagerState.mk false false 0 []) true RawReply.empty =
        Except.ok { ManagerState.mk false false 0 [] with
          processAlive := true, is_healthy := true } :=
  ⟨rfl, (start_handshake_not_healthy (ManagerState.mk false false 0 []) RawReply.empty rfl).2.2⟩

/-- C6 counterexample: the empty artifact is storable and reachable
(`page_snapshot` may be stored as `""`), and at it the handler's
truthiness check returns early without creating any cursor — the first
optionless read does not create a cursor holding the content's hash,
refuting the claim at an input it covers. -/
theorem first_read_empty_artifact_no_cursor :
    get_content (fun s => s) "r0" (some "") none "" false 0 0 1 = ("", none)
    ∧ (get_content (fun s => s) "r0" (some "") none "" false 0 0 1).2
        ≠ some (DiffCursor.mk "r0" ("" : String).length ((fun s => s) "") 1) :=
  ⟨rfl, by decide⟩

/-- C6 (amended): for a stored **nonempty** artifact with no prior cursor,
a read with no options returns the full artifact text and creates a
cursor holding the hash of that content, and an immediately following
second read with the artifact unchanged returns an empty result; for the
empty stored artifact the handler instead returns empty content without
touching the cursor state, so no cursor is ever created there. -/
theorem first_read_full_second_read_empty (hash : String → String)
    (rid snap : String) (t1 t2 : Nat) (h : snap ≠ "") :
    get_content hash rid (some snap) none "" false 0 0 t1
        = (snap, some (DiffCursor.mk rid snap.length (hash snap) t1))
    ∧ get_content hash rid (some snap)
        (some (DiffCursor.mk rid snap.length (hash snap) t1)) "" false 0 0 t2
        = ("", some (DiffCursor.mk rid snap.length (hash snap) t2))
    ∧ ∀ (cursor0 : Option DiffCursor) (t : Nat),
        get_content hash rid (some "") cursor0 "" false 0 0 t = ("", cursor0) := by
  refine ⟨?_, ?_, ?_⟩
  · simp [get_content, h]
  · simp [get_content, h]
  · intro cursor0 t
    rfl

/-- C6 amended witness: a concrete nonempty artifact read twice, and the
empty artifact leaving the (absent) cursor untouched. -/
theorem first_read_full_second_read_empty_witness :
    ("a\nb" : String) ≠ ""
    ∧ get_content (fun s => s) "r1" (some "a\nb") none "" false 0 0 1
        = ("a\nb", some (DiffCursor.mk "r1" ("a\nb" : String).length "a\nb" 1))
    ∧ get_content (fun s => s) "r1" (some "a\nb")
        (some (DiffCursor.mk "r1" ("a\nb" : String).length "a\nb" 1)) "" false 0 0 2
        = ("", some (DiffCursor.mk "r1" ("a\nb" : String).length "a\nb" 2))
    ∧ get_content (fun s => s) "r1" (some "") none "" false 0 0 3 = ("", none) :=
  ⟨by decide,
   (first_read_full_second_read_empty (fun s => s) "r1" "a\nb" 1 2 (by decide)).1,
   (first_read_full_second_read_empty (fun s => s) "r1" "a\nb" 1 2 (by decide)).2.1,
   (first_read_full_second_read_empty (fun s => s) "r1" "a\nb" 1 2 (by decide)).2.2 none 3⟩

/-- C1 counterexample: with the (injective) hash instantiated as the
identity, an artifact `"alpha\nbeta"` whose cursor stores the hash of
the unchanged unfiltered artifact is read with filter `"alpha"`: the
claim says the read must be classified unchanged (empty result, since
the unfiltered hash equals the stored hash), but the code returns the
nonempty filtered content — the change decision used the filtered
content's hash. -/
theorem diff_decision_counterexample :
    DiffCursor.last_snapshot_hash
        (DiffCursor.mk "r" 10 ((fun s => s) "alpha\nbeta") 0)
        = (fun s => s) "alpha\nbeta"
    ∧ (get_content (fun s => s) "r" (some "alpha\nbeta")
        (some (DiffCursor.mk "r" 10 ((fun s => s) "alpha\nbeta") 0))
        "alpha" false 0 0 1).1 = "alpha"
    ∧ ("alpha" : String) ≠ "" :=
  ⟨rfl, by decide, by decide⟩

/-- C1 (amended): with an existing cursor and no reset requested, the
change decision compares the hash of the filtered view — the same text
that would be returned — against the cursor's stored hash: the read is
classified unchanged (empty result) exactly when the stored hash equals
the hash of the filtered content, so an active filter affects the
change-detection decision, not only the returned content. -/
theorem diff_decision_uses_filtered_hash (hash : String → String)
    (rid snap search : String) (c : DiffCursor) (before after now : Nat)
    (hsnap : snap ≠ "") (hsearch : search ≠ "") :
    get_content hash rid (some snap) (some c) search false before after now =
      (if c.last_snapshot_hash = hash (applyFilter snap search before after)
       then "" else applyFilter snap search before after,
       some (if c.last_snapshot_hash = hash (applyFilter snap search before after)
             then { c with last_read := now }
             else { c with
               cursor_position := (applyFilter snap search before after).length,
               last_snapshot_hash := hash (applyFilter snap search before after),
               last_read := now })) := by
  by_cases hc : c.last_snapshot_hash = hash (applyFilter snap search before after)
  · simp [get_content, hsnap, hsearch, hc]
  · simp [get_content, hsnap, hsearch, hc]

/-- C1 amended witness: the counterexample scenario, through the amended
statement: the stored hash differs from the filtered content's hash, so
the filtered content is returned. -/
theorem diff_decision_uses_filtered_hash_witness :
    get_content (fun s => s) "r" (some "alpha\nbeta")
        (some (DiffCursor.mk "r" 10 "alpha\nbeta" 0)) "alpha" false 0 0 1 =
      (if ("alpha\nbeta" : String) = applyFilter "alpha\nbeta" "alpha" 0 0
       then "" else applyFilter "alpha\nbeta" "alpha" 0 0,
       some (if ("alpha\nbeta" : String) = applyFilter "alpha\nbeta" "alpha" 0 0
             then DiffCursor.mk "r" 10 "alpha\nbeta" 1
             else DiffCursor.mk "r" (applyFilter "alpha\nbeta" "alpha" 0 0).length
                    (applyFilter "alpha\nbeta" "alpha" 0 0) 1)) :=
  diff_decision_uses_filtered_hash (fun s => s) "r" "alpha\nbeta" "alpha"
    (DiffCursor.mk "r" 10 "alpha\nbeta" 0) 0 0 1 (by decide) (by decide)

/-- C4 counterexample: a caller-supplied `request_id` becomes the
reference id returned to the caller, so the id is not freshly minted by
the store: with `request_id = "caller-chosen"` and the freshly drawn
uuid `"fresh-uuid"`, the returned reference id is the caller's. -/
theorem ref_id_caller_controlled :
    (proxy_request (AppState.mk [("s1", "active")] [] [])
        (ProxyRequest.mk "s1" "browser_click" (Json.obj []) (some "caller-chosen"))
        "fresh-uuid" (Except.ok Json.null)).1
      = ProxyOutcome.ok "caller-chosen" "success" none
    ∧ ("caller-chosen" : String) ≠ "fresh-uuid" := by
  constructor
  · rfl
  · decide

/-- C4 (amended): the reference id returned to the caller is the
caller-supplied `request_id` whenever one is provided and nonempty, and
only otherwise a freshly generated uuid — so uniqueness holds only for
the generated ids, not against caller-supplied ones. -/
theorem ref_id_choice (app : AppState) (req : ProxyRequest)
    (fresh : String) (rpc : Except String Json)
    (h : lookupSession app req.session_id = some "active") :
    ∀ r s e, (proxy_request app req fresh rpc).1 = ProxyOutcome.ok r s e →
      r = match req.request_id with
          | some rid => if rid = "" then fresh else rid
          | none => fresh := by
  intro r s e hr
  unfold proxy_request at hr
  rw [h] at hr
  simp only [ne_eq, ite_not] at hr
  cases rpc with
  | ok v =>
    simp at hr
    exact hr.1.symm
  | error msg =>
    simp at hr
    exact hr.1.symm

/-- C4 amended witness: caller-supplied id and generated-id fallback. -/
theorem ref_id_choice_witness :
    lookupSession (AppState.mk [("s1", "active")] [] []) "s1" = some "active"
    ∧ (proxy_request (AppState.mk [("s1", "active")] [] [])
        (ProxyRequest.mk "s1" "t" (Json.obj []) (some "mine"))
        "fresh" (Except.ok Json.null)).1 = ProxyOutcome.ok "mine" "success" none
    ∧ "mine" = match (some "mine" : Option String) with
        | some rid => if rid = "" then "fresh" else rid
        | none => "fresh" :=
  ⟨rfl, rfl,
   ref_id_choice (AppState.mk [("s1", "active")] [] [])
     (ProxyRequest.mk "s1" "t" (Json.obj []) (some "mine")) "fresh"
     (Except.ok Json.null) rfl "mine" "success" none rfl⟩

theorem find_map_set (l : List (String × String)) (sid v : String)
    (h : (l.find? (fun p => p.1 = sid)).isSome) :
    (l.map (fun p => if p.1 = sid then (p.1, v) else p)).find? (fun p => p.1 = sid)
      = some (sid, v) := by
  induction l with
  | nil => simp at h
  | cons p rest ih =>
    by_cases hp : p.1 = sid
    · simp [List.find?_cons, hp]
    · have h' : (rest.find? (fun p => decide (p.1 = sid))).isSome := by
        rw [List.find?_cons_of_neg _ (by simp [hp])] at h
        exact h
      simp only [List.map_cons, if_neg hp]
      rw [List.find?_cons_of_neg _ (by simp [hp])]
      exact ih h'

theorem lookup_setSessionState {app : AppState} {sid : String}
    (h : (lookupSession app sid).isSome) (v : String) :
    lookupSession (setSessionState app sid v) sid = some v := by
  have hfind : (app.sessions.find? (fun p => p.1 = sid)).isSome := by
    cases hf : app.sessions.find? (fun p => p.1 = sid) with
    | none =>
      unfold lookupSession at h
      rw [hf] at h
      simp at h
    | some p => rfl
  unfold lookupSession setSessionState
  rw [find_map_set app.sessions sid v hfind]
  rfl

theorem proxy_reject_error (app : AppState) (req : ProxyRequest)
    (fresh : String) (rpc : Except String Json)
    (h : lookupSession app req.session_id = some "error") :
    proxy_request app req fresh rpc
      = (ProxyOutcome.httpError 400 "Session is error", app) := by
  unfold proxy_request
  rw [h]
  rfl

/-- C10: a failed forwarded call on an active session stores an error
response, moves the session to the `error` state, and returns an error
outcome with the truncated message; afterwards every further call for
that session is rejected with HTTP 400 `Session is error` with the state
untouched — no request row is created and the outcome is the same
whatever the forwarded call would have produced, i.e. nothing reaches
the subprocess. -/
theorem session_error_latch (app : AppState) (req : ProxyRequest)
    (e fresh : String) (h : lookupSession app req.session_id = some "active") :
    (∃ r, (proxy_request app req fresh (Except.error e)).1 =
        ProxyOutcome.ok r "error" (some (truncate_error e 500)))
    ∧ lookupSession (proxy_request app req fresh (Except.error e)).2 req.session_id
        = some "error"
    ∧ ∀ (req2 : ProxyRequest) (fresh2 : String) (rpc2 : Except String Json),
        req2.session_id = req.session_id →
        proxy_request (proxy_request app req fresh (Except.error e)).2 req2 fresh2 rpc2
          = (ProxyOutcome.httpError 400 "Session is error",
             (proxy_request app req fresh (Except.error e)).2) := by
  have hsome : (lookupSession app req.session_id).isSome := by
    rw [h]
    rfl
  have hs2 : lookupSession (proxy_request app req fresh (Except.error e)).2 req.session_id
      = some "error" := by
    unfold proxy_request
    rw [h]
    exact lookup_setSessionState hsome "error"
  refine ⟨?_, hs2, ?_⟩
  · refine ⟨(match req.request_id with
      | some r => if r = "" then fresh else r
      | none => fresh), ?_⟩
    unfold proxy_request
    rw [h]
    rfl
  · intro req2 fresh2 rpc2 hsid
    apply proxy_reject_error
    rw [hsid]
    exact hs2

/-- C10 witness: one failing call on a concrete active session, then a
second call that is rejected with 400 before doing anything. -/
theorem session_error_latch_witness :
    lookupSession (AppState.mk [("s1", "active")] [] []) "s1" = some "active"
    ∧ proxy_request
        (proxy_request (AppState.mk [("s1", "active")] [] [])
          (ProxyRequest.mk "s1" "browser_click" (Json.obj []) none)
          "u1" (Except.error "boom")).2
        (ProxyRequest.mk "s1" "browser_snapshot" (Json.obj []) none)
        "u2" (Except.ok Json.null)
      = (ProxyOutcome.httpError 400 "Session is error",
         (proxy_request (AppState.mk [("s1", "active")] [] [])
           (ProxyRequest.mk "s1" "browser_click" (Json.obj []) none)
           "u1" (Except.error "boom")).2) :=
  ⟨rfl,
   (session_error_latch (AppState.mk [("s1", "active")] [] [])
       (ProxyRequest.mk "s1" "browser_click" (Json.obj []) none) "boom" "u1"
       rfl).2.2
     (ProxyRequest.mk "s1" "browser_snapshot" (Json.obj []) none)
     "u2" (Except.ok Json.null) rfl⟩

theorem mem_setAdd {s : List Nat} {x k : Nat} :
    k ∈ setAdd s x ↔ k = x ∨ k ∈ s := by
  unfold setAdd
  by_cases h : x ∈ s
  · rw [if_pos h]
    constructor
    · exact Or.inr
    · rintro (rfl | hk)
      · exact h
      · exact hk
  · rw [if_neg h]
    exact List.mem_cons

theorem mem_foldl_setAdd :
    ∀ (ctx acc : List Nat) (k : Nat),
      k ∈ ctx.foldl setAdd acc ↔ k ∈ acc ∨ k ∈ ctx := by
  intro ctx
  induction ctx with
  | nil => simp
  | cons x xs ih =>
    intro acc k
    simp only [List.foldl_cons]
    rw [ih, mem_setAdd, List.mem_cons]
    tauto

theorem nodup_setAdd {s : List Nat} (h : s.Nodup) (x : Nat) :
    (setAdd s x).Nodup := by
  unfold setAdd
  by_cases hx : x ∈ s
  · rwa [if_pos hx]
  · rw [if_neg hx]
    exact List.nodup_cons.mpr ⟨hx, h⟩

theorem nodup_foldl_setAdd :
    ∀ (ctx acc : List Nat), acc.Nodup → (ctx.foldl setAdd acc).Nodup := by
  intro ctx
  induction ctx with
  | nil => exact fun acc h => h
  | cons x xs ih =>
    intro acc h
    simp only [List.foldl_cons]
    exact ih _ (nodup_setAdd h x)

theorem mem_scanFold (p : Nat → Bool) (g : Nat → List Nat) :
    ∀ (l acc : List Nat) (k : Nat),
      (k ∈ l.foldl (fun acc i => if p i then (g i).foldl setAdd acc else acc) acc)
        ↔ k ∈ acc ∨ ∃ i ∈ l, p i = true ∧ k ∈ g i := by
  intro l
  induction l with
  | nil => simp
  | cons x xs ih =>
    intro acc k
    simp only [List.foldl_cons]
    by_cases hx : p x
    · rw [if_pos hx, ih, mem_foldl_setAdd]
      simp only [List.exists_mem_cons_iff, hx, true_and]
      tauto
    · rw [if_neg hx, ih]
      simp only [List.exists_mem_cons_iff]
      have : ¬ (p x = true ∧ k ∈ g x) := fun hc => hx hc.1
      tauto

theorem nodup_scanFold (p : Nat → Bool) (g : Nat → List Nat) :
    ∀ (l acc : List Nat), acc.Nodup →
      (l.foldl (fun acc i => if p i then (g i).foldl setAdd acc else acc) acc).Nodup := by
  intro l
  induction l with
  | nil => exact fun acc h => h
  | cons x xs ih =>
    intro acc h
    simp only [List.foldl_cons]
    by_cases hx : p x
    · rw [if_pos hx]
      exact ih _ (nodup_foldl_setAdd _ _ h)
    · rw [if_neg hx]
      exact ih _ h

theorem mem_contextIndices {n i before after k : Nat} (hi : i < n) :
    k ∈ contextIndices n i before after ↔
      (k < n ∧ i ≤ k + before ∧ k ≤ i + after) := by
  constructor
  · intro hk
    rcases List.mem_cons.mp hk with rfl | hk
    · omega
    rcases List.mem_append.mp hk with hk | hk
    · rcases List.mem_filterMap.mp hk with ⟨b, hb, hbe⟩
      rw [List.mem_range] at hb
      by_cases hcond : b + 1 ≤ i
      · rw [if_pos hcond] at hbe
        injection hbe with hbe
        omega
      · rw [if_neg hcond] at hbe
        exact absurd hbe (by simp)
    · rcases List.mem_filterMap.mp hk with ⟨a, ha, hae⟩
      rw [List.mem_range] at ha
      by_cases hcond : i + (a + 1) < n
      · rw [if_pos hcond] at hae
        injection hae with hae
        omega
      · rw [if_neg hcond] at hae
        exact absurd hae (by simp)
  · rintro ⟨hkn, hkB, hkA⟩
    rcases Nat.lt_trichotomy k i with hlt | rfl | hgt
    · apply List.mem_cons_of_mem
      apply List.mem_append_left
      apply List.mem_filterMap.mpr
      refine ⟨i - k - 1, List.mem_range.mpr (by omega), ?_⟩
      rw [if_pos (by omega)]
      congr 1
      omega
    · exact List.mem_cons_self _ _
    · apply List.mem_cons_of_mem
      apply List.mem_append_right
      apply List.mem_filterMap.mpr
      refine ⟨k - i - 1, List.mem_range.mpr (by omega), ?_⟩
      rw [if_pos (by omega)]
      congr 1
      omega

theorem mem_matchingIndices {all_lines : List String} {search_for : String}
    {B A k : Nat} :
    k ∈ matchingIndices all_lines search_for B A ↔
      (k < all_lines.length ∧ ∃ i, i < all_lines.length
        ∧ strContains (all_lines.getD i "") search_for = true
        ∧ i ≤ k + B ∧ k ≤ i + A) := by
  unfold matchingIndices
  rw [mem_scanFold]
  simp only [List.not_mem_nil, false_or, List.mem_range]
  constructor
  · rintro ⟨i, hi, hp, hk⟩
    rw [mem_contextIndices hi] at hk
    exact ⟨hk.1, i, hi, hp, hk.2.1, hk.2.2⟩
  · rintro ⟨hkn, i, hi, hp, h1, h2⟩
    exact ⟨i, hi, hp, (mem_contextIndices hi).mpr ⟨hkn, h1, h2⟩⟩

theorem mem_keptIndicesSpec {all_lines : List String} {search_for : String}
    {B A k : Nat} :
    k ∈ keptIndicesSpec all_lines search_for B A ↔
      (k < all_lines.length ∧ ∃ i, i < all_lines.length
        ∧ strContains (all_lines.getD i "") search_for = true
        ∧ i ≤ k + B ∧ k ≤ i + A) := by
  unfold keptIndicesSpec
  rw [List.mem_filter, List.mem_range]
  simp only [List.any_eq_true, List.mem_range, Bool.and_eq_true, decide_eq_true_eq]
  constructor
  · rintro ⟨hkn, i, hi, ⟨hp, h1⟩, h2⟩
    exact ⟨hkn, i, hi, hp, h1, h2⟩
  · rintro ⟨hkn, i, hi, hp, h1, h2⟩
    exact ⟨hkn, i, hi, ⟨hp, h1⟩, h2⟩

theorem sorted_keptIndicesSpec (all_lines : List String) (search_for : String)
    (B A : Nat) :
    List.Pairwise (· < ·) (keptIndicesSpec all_lines search_for B A) :=
  (List.pairwise_lt_range _).filter _

theorem sorted_matching_eq_keptSpec (all_lines : List String)
    (search_for : String) (B A : Nat) :
    List.insertionSort (· ≤ ·) (matchingIndices all_lines search_for B A)
      = keptIndicesSpec all_lines search_for B A := by
  have hlt := sorted_keptIndicesSpec all_lines search_for B A
  have hnd₂ : (keptIndicesSpec all_lines search_for B A).Nodup :=
    hlt.imp Nat.ne_of_lt
  have hnd₁ : (List.insertionSort (· ≤ ·)
      (matchingIndices all_lines search_for B A)).Nodup :=
    ((List.perm_insertionSort _ _).nodup_iff).mpr
      (nodup_scanFold _ _ _ _ List.nodup_nil)
  apply List.eq_of_perm_of_sorted
    ((List.perm_ext_iff_of_nodup hnd₁ hnd₂).mpr ?_)
    (List.sorted_insertionSort _ _)
    (hlt.imp le_of_lt)
  intro a
  rw [(List.perm_insertionSort _ _).mem_iff, mem_matchingIndices,
    mem_keptIndicesSpec]

theorem emit_some_cons (all_lines : List String) :
    ∀ (rest : List Nat) (p k : Nat),
      emitLines all_lines (some p) (k :: rest) =
        (if p + 1 < k then ["--"] else []) ++ renderKeptSpec all_lines (k :: rest) := by
  intro rest
  induction rest with
  | nil =>
    intro p k
    show (if decide (k - p > 1) then ["--"] else [])
        ++ (all_lines.getD k "" :: emitLines all_lines (some k) []) = _
    congr 1
    exact if_congr (by simp only [decide_eq_true_eq]; omega) rfl rfl
  | cons k2 r2 ih =>
    intro p k
    show (if decide (k - p > 1) then ["--"] else [])
        ++ (all_lines.getD k "" :: emitLines all_lines (some k) (k2 :: r2)) = _
    rw [ih k k2]
    congr 1
    exact if_congr (by simp only [decide_eq_true_eq]; omega) rfl rfl

theorem emit_none_eq_render (all_lines : List String) :
    ∀ ks : List Nat, emitLines all_lines none ks = renderKeptSpec all_lines ks := by
  intro ks
  rcases ks with _ | ⟨k, rest⟩
  · rfl
  · show all_lines.getD k "" :: emitLines all_lines (some k) rest = _
    rcases rest with _ | ⟨k2, r2⟩
    · rfl
    · rw [emit_some_cons all_lines r2 k k2]
      rfl

/-- C7: the substring filter with before/after context returns, in
original line order, every line within the context window of a matching
line, with overlapping regions merged (the kept indices are exactly
those within distance `before` below or `after` above a match) and a
literal `--` line inserted exactly between non-adjacent kept indices —
the code's filter coincides with the specification's description on
every input — and on the spec's concrete scenario it produces
`"MATCH\nline3\n--\nMATCH2\nline6"`. -/
theorem filter_matches_spec :
    (∀ (content search_for : String) (B A : Nat),
      applyFilter content search_for B A = filteredSpec content search_for B A)
    ∧ applyFilter "line1\nMATCH\nline3\nline4\nMATCH2\nline6" "MATCH" 0 1
        = "MATCH\nline3\n--\nMATCH2\nline6" := by
  constructor
  · intro content search_for B A
    unfold applyFilter filteredSpec
    simp only [sorted_matching_eq_keptSpec, emit_none_eq_render]
  · decide

theorem evict_split (W now : ℚ) :
    ∀ l : List ℚ, ∃ moved, l = moved ++ evictOld W now l
      ∧ ∀ d ∈ moved, W < now - d := by
  intro l
  induction l with
  | nil => exact ⟨[], rfl, by simp⟩
  | cons t ts ih =>
    by_cases h : now - t > W
    · obtain ⟨moved, hm, hd⟩ := ih
      refine ⟨t :: moved, ?_, ?_⟩
      · simp only [evictOld, if_pos h, List.cons_append]
        rw [← hm]
      · intro d hd'
        rcases List.mem_cons.mp hd' with rfl | hd'
        · exact h
        · exact hd d hd'
    · refine ⟨[], ?_, by simp⟩
      simp only [evictOld, if_neg h, List.nil_append]

theorem evictOld_eq_filter (W now : ℚ) :
    ∀ l : List ℚ, l.Pairwise (· ≤ ·) →
      evictOld W now l = l.filter (fun x => decide (now - x ≤ W)) := by
  intro l
  induction l with
  | nil => intro _; rfl
  | cons t ts ih =>
    intro hs
    rw [List.pairwise_cons] at hs
    by_cases h : now - t > W
    · rw [List.filter_cons_of_neg (by simp only [decide_eq_true_eq]; linarith)]
      simp only [evictOld, if_pos h]
      exact ih hs.2
    · rw [List.filter_cons_of_pos (by simp only [decide_eq_true_eq]; linarith)]
      simp only [evictOld, if_neg h]
      rw [List.filter_eq_self.mpr]
      intro a ha
      have := hs.1 a ha
      simp only [decide_eq_true_eq]
      linarith

theorem dequeAppend_of_lt {maxA : Nat} {l : List ℚ} (h : l.length < maxA) (x : ℚ) :
    dequeAppend maxA l x = l ++ [x] := by
  simp only [dequeAppend]
  rw [show (l ++ [x]).length - maxA = 0 from by simp; omega]
  rfl

theorem attempt_restart_refused {maxA : Nat} {W now : ℚ} {l : List ℚ}
    (h : maxA ≤ (evictOld W now l).length) :
    attempt_restart maxA W now l = (evictOld W now l, none) := by
  simp only [attempt_restart]
  rw [if_pos h]

theorem attempt_restart_proceed {maxA : Nat} {W now : ℚ} {l : List ℚ}
    (h : (evictOld W now l).length < maxA) :
    attempt_restart maxA W now l =
      (evictOld W now l ++ [now],
       some (2 ^ ((evictOld W now l ++ [now]).length - 1))) := by
  simp only [attempt_restart]
  rw [if_neg (by omega), dequeAppend_of_lt h]

theorem runPolicy_cons_refused {maxA : Nat} {W : ℚ} {st : List ℚ} {t : ℚ}
    {ts : List ℚ} (h : maxA ≤ (evictOld W t st).length) :
    runPolicy maxA W st (t :: ts) = runPolicy maxA W (evictOld W t st) ts := by
  simp only [runPolicy, attempt_restart_refused h]

theorem runPolicy_cons_proceed {maxA : Nat} {W : ℚ} {st : List ℚ} {t : ℚ}
    {ts : List ℚ} (h : (evictOld W t st).length < maxA) :
    runPolicy maxA W st (t :: ts) =
      ((runPolicy maxA W (evictOld W t st ++ [t]) ts).1,
       (t, 2 ^ ((evictOld W t st ++ [t]).length - 1))
         :: (runPolicy maxA W (evictOld W t st ++ [t]) ts).2) := by
  simp only [runPolicy, attempt_restart_proceed h]

theorem window_aux (maxA : Nat) (W : ℚ) (hW : 0 ≤ W) :
    ∀ (times dropped st : List ℚ) (T : ℚ),
      times.Pairwise (· ≤ ·) → (∀ x ∈ times, T ≤ x) →
      (∀ d ∈ dropped, d < T - W) → (∀ x ∈ st, x ≤ T) →
      (∀ t : ℚ, ((dropped ++ st).filter
          (fun x => decide (t - W ≤ x ∧ x ≤ t))).length ≤ maxA) →
      ∀ t : ℚ, (((dropped ++ st)
            ++ (runPolicy maxA W st times).2.map Prod.fst).filter
          (fun x => decide (t - W ≤ x ∧ x ≤ t))).length ≤ maxA := by
  intro times
  induction times with
  | nil =>
    intro dropped st T _ _ _ _ h5 t
    simpa [runPolicy] using h5 t
  | cons tc ts ih =>
    intro dropped st T hpw hTle h2 h3 h5 t
    rw [List.pairwise_cons] at hpw
    have htc : T ≤ tc := hTle tc (List.mem_cons_self _ _)
    obtain ⟨moved, hsplit, hmoved⟩ := evict_split W tc st
    have hst1 : ∀ x ∈ evictOld W tc st, x ≤ T := fun x hx =>
      h3 x (hsplit ▸ List.mem_append_right _ hx)
    have h2' : ∀ d ∈ dropped ++ moved, d < tc - W := by
      intro d hd
      rcases List.mem_append.mp hd with hd | hd
      · have := h2 d hd
        linarith
      · have := hmoved d hd
        linarith
    have happ : (dropped ++ moved) ++ evictOld W tc st = dropped ++ st := by
      rw [List.append_assoc, ← hsplit]
    by_cases hcap : maxA ≤ (evictOld W tc st).length
    · rw [runPolicy_cons_refused hcap]
      have hres := ih (dropped ++ moved) (evictOld W tc st) tc hpw.2
        (fun x hx => hpw.1 x hx) h2'
        (fun x hx => le_trans (hst1 x hx) htc)
        (fun t' => by rw [happ]; exact h5 t') t
      rwa [happ] at hres
    · push_neg at hcap
      rw [runPolicy_cons_proceed hcap]
      simp only [List.map_cons]
      have h5'' : ∀ t' : ℚ, (((dropped ++ moved)
            ++ (evictOld W tc st ++ [tc])).filter
          (fun x => decide (t' - W ≤ x ∧ x ≤ t'))).length ≤ maxA := by
        intro t'
        rw [← List.append_assoc, happ, List.filter_append, List.length_append]
        by_cases hin : t' - W ≤ tc ∧ tc ≤ t'
        · rw [← happ, List.filter_append, List.length_append]
          have hdfilter : (dropped ++ moved).filter
              (fun x => decide (t' - W ≤ x ∧ x ≤ t')) = [] := by
            rw [List.filter_eq_nil_iff]
            intro a ha
            have hya := h2' a ha
            simp only [decide_eq_true_eq, not_and]
            intro h1 h2''
            have : tc - W ≤ t' - W := by linarith [hin.2]
            linarith
          rw [hdfilter]
          have hb1 : ((evictOld W tc st).filter
              (fun x => decide (t' - W ≤ x ∧ x ≤ t'))).length
                ≤ (evictOld W tc st).length := List.length_filter_le _ _
          have hb2 : (([tc] : List ℚ).filter
              (fun x => decide (t' - W ≤ x ∧ x ≤ t'))).length ≤ 1 := by
            have := List.length_filter_le
              (fun x => decide (t' - W ≤ x ∧ x ≤ t')) [tc]
            simpa using this
          simp only [List.length_nil]
          omega
        · have htcf : (([tc] : List ℚ).filter
              (fun x => decide (t' - W ≤ x ∧ x ≤ t'))) = [] := by
            rw [List.filter_eq_nil_iff]
            intro a ha
            rcases List.mem_singleton.mp ha with rfl
            simpa using hin
          rw [htcf]
          simp only [List.length_nil, Nat.add_zero]
          exact h5 t'
      have hres := ih (dropped ++ moved) (evictOld W tc st ++ [tc]) tc hpw.2
        (fun x hx => hpw.1 x hx) h2'
        (fun x hx => by
          rcases List.mem_append.mp hx with hx | hx
          · exact le_trans (hst1 x hx) htc
          · exact le_of_eq (List.mem_singleton.mp hx))
        h5'' t
      have hre : ((dropped ++ moved) ++ (evictOld W tc st ++ [tc]))
            ++ (runPolicy maxA W (evictOld W tc st ++ [tc]) ts).2.map Prod.fst
          = (dropped ++ st)
            ++ (tc :: (runPolicy maxA W (evictOld W tc st ++ [tc]) ts).2.map Prod.fst) := by
        rw [← happ]
        simp [List.append_assoc]
      rwa [hre] at hres

/-- C5: the restart policy (i) never performs more than
`max_restart_attempts` restarts whose timestamps lie in any closed
sliding window of width `restart_window`, for every monotone sequence of
restart-decision times; (ii) refuses without action when the retained
attempt count is already at the cap; (iii) on a permitted attempt
retains exactly the attempts within the window plus the new one and
sleeps `2^(k-1)` where `k` is the retained count; (iv) so two successive
permitted attempts with no eviction in between have strictly doubling
backoffs. -/
theorem restart_policy_window_backoff :
    (∀ (maxA : Nat) (W : ℚ), 0 ≤ W →
      ∀ times : List ℚ, times.Pairwise (· ≤ ·) →
      ∀ t : ℚ, (((runPolicy maxA W [] times).2.map Prod.fst).filter
          (fun x => decide (t - W ≤ x ∧ x ≤ t))).length ≤ maxA)
    ∧ (∀ (maxA : Nat) (W now : ℚ) (l : List ℚ),
        maxA ≤ (evictOld W now l).length →
        attempt_restart maxA W now l = (evictOld W now l, none))
    ∧ (∀ (maxA : Nat) (W now : ℚ) (l : List ℚ), l.Pairwise (· ≤ ·) →
        ∀ (l' : List ℚ) (b : Nat), attempt_restart maxA W now l = (l', some b) →
          l' = l.filter (fun x => decide (now - x ≤ W)) ++ [now]
          ∧ b = 2 ^ (l'.length - 1))
    ∧ (∀ (maxA : Nat) (W t1 t2 : ℚ) (l l1 l2 : List ℚ) (b1 b2 : Nat),
        attempt_restart maxA W t1 l = (l1, some b1) →
        evictOld W t2 l1 = l1 →
        attempt_restart maxA W t2 l1 = (l2, some b2) →
        b2 = 2 * b1) := by
  refine ⟨?_, ?_, ?_, ?_⟩
  · intro maxA W hW times hpw t
    rcases times with _ | ⟨t0, ts⟩
    · simp [runPolicy]
    · have hres := window_aux maxA W hW (t0 :: ts) [] [] t0 hpw
        (by
          intro x hx
          rcases List.mem_cons.mp hx with rfl | hx
          · exact le_refl x
          · exact (List.pairwise_cons.mp hpw).1 x hx)
        (by simp) (by simp) (by simp) t
      simpa using hres
  · intro maxA W now l h
    exact attempt_restart_refused h
  · intro maxA W now l hs l' b hcall
    by_cases hcap : maxA ≤ (evictOld W now l).length
    · rw [attempt_restart_refused hcap] at hcall
      simp at hcall
    · push_neg at hcap
      rw [attempt_restart_proceed hcap] at hcall
      simp only [Prod.mk.injEq, Option.some.injEq] at hcall
      obtain ⟨hl, hb⟩ := hcall
      subst hl
      subst hb
      exact ⟨by rw [evictOld_eq_filter W now l hs], rfl⟩
  · intro maxA W t1 t2 l l1 l2 b1 b2 h1 hev h2
    by_cases hcap1 : maxA ≤ (evictOld W t1 l).length
    · rw [attempt_restart_refused hcap1] at h1
      simp at h1
    · push_neg at hcap1
      rw [attempt_restart_proceed hcap1] at h1
      simp only [Prod.mk.injEq, Option.some.injEq] at h1
      obtain ⟨hl1, hb1⟩ := h1
      by_cases hcap2 : maxA ≤ (evictOld W t2 l1).length
      · rw [attempt_restart_refused hcap2] at h2
        simp at h2
      · push_neg at hcap2
        rw [attempt_restart_proceed hcap2] at h2
        simp only [Prod.mk.injEq, Option.some.injEq] at h2
        obtain ⟨hl2, hb2⟩ := h2
        have hlen1 : 1 ≤ l1.length := by
          rw [← hl1]
          simp
        have hA : (evictOld W t2 l1 ++ [t2]).length - 1 = l1.length := by
          rw [hev]
          simp
        have hB : (evictOld W t1 l ++ [t1]).length - 1 = l1.length - 1 := by
          rw [hl1]
        rw [← hb2, ← hb1, hA, hB]
        have hstep : l1.length - 1 + 1 = l1.length := by omega
        rw [← hstep, pow_succ]
        have hclean : l1.length - 1 + 1 - 1 = l1.length - 1 := by omega
        rw [hclean]
        ring

/-- C5 witness: with cap 2 and window 10, requests at times 0, 1, 2, 20
perform restarts at 0, 1 and 20 only (the window [-8, 2] holds 2 ≤ 2 of
them); a first attempt from an empty deque sleeps 2^0; and two back-to-back
permitted attempts double the backoff from 1 to 2. -/
theorem restart_policy_window_backoff_witness :
    (List.Pairwise (· ≤ ·) [(0 : ℚ), 1, 2, 20]
      ∧ ((((runPolicy 2 10 [] [(0 : ℚ), 1, 2, 20]).2.map Prod.fst).filter
          (fun x => decide ((2 : ℚ) - 10 ≤ x ∧ x ≤ 2))).length ≤ 2))
    ∧ (attempt_restart 1 10 5 ([] : List ℚ) = ([(5 : ℚ)], some 1)
      ∧ ([(5 : ℚ)] : List ℚ)
          = ([] : List ℚ).filter (fun x => decide ((5 : ℚ) - x ≤ 10)) ++ [(5 : ℚ)])
    ∧ (attempt_restart 3 10 1 [(0 : ℚ)] = ([(0 : ℚ), 1], some 2)
      ∧ 2 = 2 * 1) := by
  refine ⟨⟨?_, ?_⟩, ⟨?_, ?_⟩, ⟨?_, ?_⟩⟩
  · norm_num
  · exact restart_policy_window_backoff.1 2 10 (by norm_num) [(0 : ℚ), 1, 2, 20]
      (by norm_num) 2
  · have h := (restart_policy_window_backoff.2.2.1 1 10 5 ([] : List ℚ)
      (by simp) [(5 : ℚ)] 1)
    rw [attempt_restart_proceed (by simp [evictOld])]
    simp [evictOld]
  · simp
  · rw [attempt_restart_proceed (by norm_num [evictOld])]
    norm_num [evictOld, dequeAppend]
  · exact restart_policy_window_backoff.2.2.2 3 10 0 1 ([] : List ℚ)
      [(0 : ℚ)] [(0 : ℚ), 1] 1 2
      (by rw [attempt_restart_proceed (by simp [evictOld])]; simp [evictOld])
      (by norm_num [evictOld])
      (by rw [attempt_restart_proceed (by norm_num [evictOld])]
          norm_num [evictOld, dequeAppend])

end PwProxy
